import Mathlib

/-!
# Verification of `treasury_analysis_daily.py`

A shallow embedding of the daily US Treasury yield-curve pipeline
(`get_treasury_data`, `analyze_rates`, `plot_curve`, `main`) and proofs of
the specification's claims about it.

Modelling choices:
* A cell of the pandas table is `Val`: either `nan` (a missing/NaN float) or
  `num q` with `q : ℚ` standing for the finite float value.  Python/pandas
  comparison semantics on NaN (`NaN < x` is `False`, `NaN - x` is `NaN`)
  are embedded in `Val.ltB` and `Val.sub`.
* Dates are `Nat` (ordinal days); file contents are embedded structurally
  (`FContent`), not as byte strings.
* `current = df.iloc[-1]` restricted to column presence is a function
  `Maturity → Option Val`: `none` means the column is absent from the
  table (`m in current.index` is false), `some v` means the column is
  present with value `v` (possibly `nan`).
-/

/-- The bond maturities the script ever mentions: the eight FRED series it
fetches (`series` dict, lines 26–29) plus `3M`, which only appears in the
auxiliary-spread presence check on line 106. -/
inductive Maturity where
  | M1Y | M2Y | M3Y | M5Y | M7Y | M10Y | M20Y | M30Y | M3M
deriving DecidableEq, Repr

open Maturity

/-- A cell value: a finite float (as a rational) or NaN/missing. -/
inductive Val where
  | nan : Val
  | num (q : ℚ) : Val
deriving DecidableEq, Repr

namespace Val

/-- `True` exactly for `nan`; embeds pandas missing-value tests. -/
def isNan : Val → Bool
  | .nan => true
  | .num _ => false

/-- Python float subtraction: any operation with NaN yields NaN. -/
def sub : Val → Val → Val
  | .num a, .num b => .num (a - b)
  | _, _ => .nan

/-- Python float `<`: every comparison involving NaN is `False`. -/
def ltB : Val → Val → Bool
  | .num a, .num b => decide (a < b)
  | _, _ => false

end Val

/-- The canonical maturity order: both the iteration order of the `series`
dict in `get_treasury_data` (lines 26–29) and the display order `order`
in `analyze_rates` (line 83) are this same eight-element list. -/
def maturityOrder : List Maturity :=
  [M1Y, M2Y, M3Y, M5Y, M7Y, M10Y, M20Y, M30Y]

/-- The last row of the table restricted to present columns:
`none` = column absent, `some v` = present with value `v`. -/
def CurrentRow : Type := Maturity → Option Val

/-- Lines 90–91: the primary 2Y–10Y spread, computed only when both `'2Y'`
and `'10Y'` are in `current.index`; the value is `current['10Y'] -
current['2Y']` (NaN-propagating). -/
def spread2_10 (c : CurrentRow) : Option Val :=
  if (c M2Y).isSome && (c M10Y).isSome then
    some (Val.sub ((c M10Y).getD .nan) ((c M2Y).getD .nan))
  else none

/-- Lines 95–103: classification of the primary spread.  `if spread < 0`
⇒ INVERTED, `elif spread < 0.5` ⇒ FLAT, `else` ⇒ NORMAL, with Python
float comparison (`NaN < x` false). -/
def classifyVal (sp : Val) : String :=
  if sp.ltB (.num 0) then "INVERTED"
  else if sp.ltB (.num (1/2)) then "FLAT"
  else "NORMAL"

/-- Lines 106–108: the auxiliary 3M–10Y spread.  The block runs only when
both `'3M'` and `'10Y'` are in `current.index`; inside it the short leg is
read with `current.get('3M', 0)`, whose default `0` fires only when the
key is absent. -/
def spread3M10Y (c : CurrentRow) : Option Val :=
  if (c M3M).isSome && (c M10Y).isSome then
    some (Val.sub ((c M10Y).getD .nan) ((c M3M).getD (.num 0)))
  else none

/-- Lines 110–112: the auxiliary 5Y–30Y spread, plain presence check. -/
def spread5_30 (c : CurrentRow) : Option Val :=
  if (c M5Y).isSome && (c M30Y).isSome then
    some (Val.sub ((c M30Y).getD .nan) ((c M5Y).getD .nan))
  else none

/-- The one-row summary written by `analyze_rates` (lines 120–125). -/
structure SummaryRecord where
  date : Nat
  inversionStatus : String
  spread : Option Val
  yields : List (Maturity × Option Val)
deriving DecidableEq, Repr

/-- Lines 120–125: builds `summary_data`.  `inversion_status` falls back to
`'N/A'` and `2Y_10Y_spread` to `None` exactly when `'2Y'` or `'10Y'` is
absent (the guard of lines 90/122/123); yields are
`current.get(maturity, None)` in the canonical order. -/
def summaryData (d : Nat) (c : CurrentRow) : SummaryRecord :=
  { date := d
  , inversionStatus :=
      match spread2_10 c with
      | some sp => classifyVal sp
      | none => "N/A"
  , spread := spread2_10 c
  , yields := maturityOrder.map (fun m => (m, c m)) }

/-! ## Trailing-window statistics (lines 68–77)

Per-column statistics of `recent = df.tail(n_days)`.  pandas `max`, `min`,
`median`, `mean` all skip NaN cells, and return NaN when every cell of the
window is NaN; the `ℚ`-level helpers below act on the non-NaN cells. -/

/-- Greatest element of a nonempty rational list (`0` on `[]`, unused). -/
def listMax : List ℚ → ℚ
  | [] => 0
  | x :: xs => xs.foldl max x

/-- Least element of a nonempty rational list (`0` on `[]`, unused). -/
def listMin : List ℚ → ℚ
  | [] => 0
  | x :: xs => xs.foldl min x

/-- Mean of a rational list. -/
def listMean (l : List ℚ) : ℚ := l.sum / l.length

/-- pandas median: middle element of the sorted values, or the average of
the two middle elements when the count is even. -/
def listMedian (l : List ℚ) : ℚ :=
  let s := l.insertionSort (· ≤ ·)
  if s.length % 2 = 1 then s.getD (s.length / 2) 0
  else (s.getD (s.length / 2 - 1) 0 + s.getD (s.length / 2) 0) / 2

/-- The non-NaN cells of a column window, in order (pandas `skipna`). -/
def dropNan (l : List Val) : List ℚ :=
  l.filterMap (fun v => match v with | .nan => none | .num q => some q)

/-- `recent.max()` for one column: NaN when every cell is NaN. -/
def vMax (w : List Val) : Val :=
  if dropNan w = [] then .nan else .num (listMax (dropNan w))

/-- `recent.min()` for one column. -/
def vMin (w : List Val) : Val :=
  if dropNan w = [] then .nan else .num (listMin (dropNan w))

/-- `recent.median()` for one column. -/
def vMedian (w : List Val) : Val :=
  if dropNan w = [] then .nan else .num (listMedian (dropNan w))

/-- `recent.mean()` for one column. -/
def vMean (w : List Val) : Val :=
  if dropNan w = [] then .nan else .num (listMean (dropNan w))

/-- `df.tail(N)` on one column: the last `N` entries (all of them when the
column is shorter than `N`). -/
def windowOf (N : Nat) (col : List Val) : List Val :=
  col.drop (col.length - N)

/-- One row of the `stats` frame built on lines 71–77. -/
structure StatRec where
  current : Val
  wMax : Val
  wMin : Val
  wMedian : Val
  wMean : Val
deriving DecidableEq, Repr

/-! ## The table and the pipeline -/

/-- A date-indexed yield table: `cols` are the present maturities (column
order), each row is a date with one cell per column, aligned with `cols`. -/
structure YTable where
  cols : List Maturity
  rows : List (Nat × List Val)
deriving DecidableEq, Repr

/-- Cell of a row at a named column (association via the column list). -/
def rowCell (cols : List Maturity) (cells : List Val) (m : Maturity) : Option Val :=
  (cols.zip cells).lookup m

/-- One column of the table, top to bottom, absent cells as NaN. -/
def colVals (t : YTable) (m : Maturity) : List Val :=
  t.rows.map (fun r => (rowCell t.cols r.2 m).getD .nan)

/-- `df.iloc[-1]` as a presence-aware row: `none` when the column is absent
from the table, otherwise the cell of the last row. -/
def currentRowOf (t : YTable) : CurrentRow :=
  fun m =>
    if m ∈ t.cols then
      some ((rowCell t.cols (t.rows.getLastD (0, [])).2 m).getD .nan)
    else none

/-- Date of the last row, `df.index[-1]` (line 121). -/
def lastDate (t : YTable) : Nat := (t.rows.getLastD (0, [])).1

/-- The `stats` frame of lines 71–77: one `StatRec` per column over the
trailing `N`-row window. -/
def statsOf (t : YTable) (N : Nat) : List (Maturity × StatRec) :=
  t.cols.map (fun m =>
    let col := colVals t m
    let w := windowOf N col
    (m, { current := col.getLastD .nan
        , wMax := vMax w, wMin := vMin w
        , wMedian := vMedian w, wMean := vMean w }))

/-- A series fetched from FRED for one maturity: dated values, or `none`
when `pdr.get_data_fred` raised for that series. -/
def FetchF : Type := Maturity → Option (List (Nat × Val))

/-- The loop on lines 41–47 iterates over the `series` dict once; each of
the eight configured maturities is attempted exactly once, with no retry. -/
def fetchAttempts : List Maturity := maturityOrder

/-- Structural content of a written file. -/
inductive FContent where
  | table (t : YTable)
  | summary (s : SummaryRecord)
  | chart (day t : Nat)
deriving DecidableEq, Repr

/-- One file write: target name and content. Chart contents carry the full
timestamp since rendered charts may embed time-dependent artifacts. -/
structure FileWrite where
  name : String
  content : FContent
deriving DecidableEq, Repr

/-- `treasury_data_YYYYMMDD.csv` (line 58). -/
def dataName (day : Nat) : String := "treasury_data_" ++ toString day ++ ".csv"

/-- `treasury_summary_YYYYMMDD.csv` (line 128). -/
def summaryName (day : Nat) : String := "treasury_summary_" ++ toString day ++ ".csv"

/-- `pd.DataFrame(data)`: columns are the successfully fetched maturities in
dict order; the index is the sorted union of all series dates; a cell is the
series value at that date, NaN when the series has no such date. -/
def assembleTable (fetch : FetchF) : YTable :=
  let cols := maturityOrder.filter (fun m => (fetch m).isSome)
  let dates :=
    ((cols.map (fun m => ((fetch m).getD []).map Prod.fst)).flatten).dedup.insertionSort (· ≤ ·)
  { cols := cols
  , rows := dates.map (fun d =>
      (d, cols.map (fun m => (((fetch m).getD []).lookup d).getD .nan))) }

/-- `.dropna(how='all')` (line 53): keep exactly the rows having at least
one non-NaN cell. -/
def dropAllNan (t : YTable) : YTable :=
  { t with rows := t.rows.filter (fun r => r.2.any (fun v => !v.isNan)) }

/-- `get_treasury_data` (lines 24–61): if every fetch failed (`data` empty),
return an empty frame with no writes (lines 49–51); otherwise assemble,
drop all-NaN rows, write the raw CSV and return the table. -/
def getTreasuryData (day : Nat) (fetch : FetchF) : YTable × List FileWrite :=
  if maturityOrder.all (fun m => (fetch m).isNone) then
    ({ cols := [], rows := [] }, [])
  else
    let df := dropAllNan (assembleTable fetch)
    (df, [{ name := dataName day, content := .table df }])

/-- `analyze_rates` (lines 63–131): early return on an empty frame, else
build the stats frame and write the one-row summary CSV. -/
def analyzeRates (day N : Nat) (t : YTable) :
    Option (List (Maturity × StatRec)) × List FileWrite :=
  if t.rows.isEmpty then (none, [])
  else
    let s := summaryData (lastDate t) (currentRowOf t)
    (some (statsOf t N), [{ name := summaryName day, content := .summary s }])

/-- `plot_curve` writes (lines 316–321): the interactive HTML and the static
PNG, both undated names, contents time-stamped. -/
def plotWrites (day t : Nat) : List FileWrite :=
  [ { name := "treasury_analysis_plotly.html", content := .chart day t }
  , { name := "treasury_analysis.png", content := .chart day t } ]

/-- `main` (lines 326–341): fetch; return early when the frame is empty;
otherwise analyze (90-day window) and plot.  `day` is the calendar day of
the run, `tm` the time of day (both runs of one day share `day`). -/
def mainRun (day tm : Nat) (fetch : FetchF) :
    Option (List (Maturity × StatRec)) × List FileWrite :=
  let dfw := getTreasuryData day fetch
  if dfw.1.rows.isEmpty then (none, dfw.2)
  else
    let aw := analyzeRates day 90 dfw.1
    (aw.1, dfw.2 ++ aw.2 ++ plotWrites day tm)

/-- The dated CSV artifacts among a run's writes (charts excepted). -/
def isDatedCSV (fw : FileWrite) : Bool :=
  match fw.content with
  | .table _ => true
  | .summary _ => true
  | .chart _ _ => false

/-! ## Order lemmas for the window statistics -/

theorem le_foldl_max (xs : List ℚ) (b : ℚ) : b ≤ xs.foldl max b := by
  induction xs generalizing b with
  | nil => simp
  | cons x xs ih => exact le_trans (le_max_left b x) (ih (max b x))

theorem mem_le_foldl_max (xs : List ℚ) (b a : ℚ) (h : a ∈ xs) :
    a ≤ xs.foldl max b := by
  induction xs generalizing b with
  | nil => cases h
  | cons x xs ih =>
    rcases List.mem_cons.mp h with rfl | hmem
    · exact le_trans (le_max_right b a) (le_foldl_max xs (max b a))
    · exact ih (max b x) hmem

theorem mem_le_listMax (l : List ℚ) (a : ℚ) (h : a ∈ l) : a ≤ listMax l := by
  match l with
  | [] => cases h
  | x :: xs =>
    rcases List.mem_cons.mp h with rfl | hmem
    · exact le_foldl_max xs a
    · exact mem_le_foldl_max xs x a hmem

theorem foldl_min_le (xs : List ℚ) (b : ℚ) : xs.foldl min b ≤ b := by
  induction xs generalizing b with
  | nil => simp
  | cons x xs ih => exact le_trans (ih (min b x)) (min_le_left b x)

theorem foldl_min_le_mem (xs : List ℚ) (b a : ℚ) (h : a ∈ xs) :
    xs.foldl min b ≤ a := by
  induction xs generalizing b with
  | nil => cases h
  | cons x xs ih =>
    rcases List.mem_cons.mp h with rfl | hmem
    · exact le_trans (foldl_min_le xs (min b a)) (min_le_right b a)
    · exact ih (min b x) hmem

theorem listMin_le_mem (l : List ℚ) (a : ℚ) (h : a ∈ l) : listMin l ≤ a := by
  match l with
  | [] => cases h
  | x :: xs =>
    rcases List.mem_cons.mp h with rfl | hmem
    · exact foldl_min_le xs a
    · exact foldl_min_le_mem xs x a hmem

theorem listMin_le_listMean (l : List ℚ) (h : l ≠ []) : listMin l ≤ listMean l := by
  have hlen : 0 < (l.length : ℚ) := by
    have hp : 0 < l.length := List.length_pos.mpr h
    exact_mod_cast hp
  have hsum := List.card_nsmul_le_sum l (listMin l) (fun x hx => listMin_le_mem l x hx)
  rw [nsmul_eq_mul] at hsum
  rw [listMean, le_div_iff₀ hlen]
  linarith [hsum]

theorem listMean_le_listMax (l : List ℚ) (h : l ≠ []) : listMean l ≤ listMax l := by
  have hlen : 0 < (l.length : ℚ) := by
    have hp : 0 < l.length := List.length_pos.mpr h
    exact_mod_cast hp
  have hsum := List.sum_le_card_nsmul l (listMax l) (fun x hx => mem_le_listMax l x hx)
  rw [nsmul_eq_mul] at hsum
  rw [listMean, div_le_iff₀ hlen]
  linarith [hsum]

theorem listMedian_mem_bounds (l : List ℚ) (h : l ≠ []) :
    listMin l ≤ listMedian l ∧ listMedian l ≤ listMax l := by
  have hperm : List.Perm (l.insertionSort (· ≤ ·)) l := List.perm_insertionSort _ l
  have hlen : (l.insertionSort (· ≤ ·)).length = l.length := hperm.length_eq
  have hpos : 0 < l.length := List.length_pos.mpr h
  have hmem : ∀ i, i < (l.insertionSort (· ≤ ·)).length →
      (l.insertionSort (· ≤ ·)).getD i 0 ∈ l := by
    intro i hi
    rw [List.getD_eq_getElem _ _ hi]
    exact hperm.mem_iff.mp (List.getElem_mem hi)
  unfold listMedian
  simp only
  split
  next hodd =>
    have hi : (l.insertionSort (· ≤ ·)).length / 2 < (l.insertionSort (· ≤ ·)).length := by
      omega
    exact ⟨listMin_le_mem l _ (hmem _ hi), mem_le_listMax l _ (hmem _ hi)⟩
  next heven =>
    have hi1 : (l.insertionSort (· ≤ ·)).length / 2 - 1 <
        (l.insertionSort (· ≤ ·)).length := by omega
    have hi2 : (l.insertionSort (· ≤ ·)).length / 2 <
        (l.insertionSort (· ≤ ·)).length := by omega
    have m1 := hmem _ hi1
    have m2 := hmem _ hi2
    constructor
    · have a1 := listMin_le_mem l _ m1
      have a2 := listMin_le_mem l _ m2
      linarith
    · have a1 := mem_le_listMax l _ m1
      have a2 := mem_le_listMax l _ m2
      linarith

/-- The finite value of a non-NaN cell (`0` on NaN, unused there). -/
def toQ : Val → ℚ
  | .nan => 0
  | .num q => q

theorem dropNan_of_noNan (w : List Val) (h : ∀ v ∈ w, v.isNan = false) :
    dropNan w = w.map toQ := by
  induction w with
  | nil => rfl
  | cons v vs ih =>
    have hv := h v (List.mem_cons_self v vs)
    have ih2 := ih (fun x hx => h x (List.mem_cons_of_mem v hx))
    cases v with
    | nan => simp [Val.isNan] at hv
    | num q =>
      show q :: dropNan vs = q :: vs.map toQ
      rw [ih2]

theorem windowOf_ne_nil (N : Nat) (col : List Val) (hcol : col ≠ []) (hN : 1 ≤ N) :
    windowOf N col ≠ [] := by
  have hp : 0 < col.length := List.length_pos.mpr hcol
  have hlen : (windowOf N col).length = col.length - (col.length - N) := by
    simp [windowOf]
  apply List.length_pos.mp
  omega

theorem getLastD_irrel (l : List Val) (h : l ≠ []) (d e : Val) :
    l.getLastD d = l.getLastD e := by
  rw [List.getLastD_eq_getLast?, List.getLastD_eq_getLast?,
    List.getLast?_eq_getLast l h]
  rfl

theorem getLastD_drop (l : List Val) (k : Nat) (hk : k < l.length) (d : Val) :
    (l.drop k).getLastD d = l.getLastD d := by
  induction l generalizing k with
  | nil => simp at hk
  | cons x xs ih =>
    match k with
    | 0 => rfl
    | Nat.succ k =>
      have hk2 : k < xs.length := by
        simpa using Nat.lt_of_succ_lt_succ hk
      have hxs : xs ≠ [] := List.length_pos.mp (by omega)
      rw [List.drop_succ_cons, ih k hk2, List.getLastD_cons,
        getLastD_irrel xs hxs x d]

theorem getLastD_mem (l : List Val) (h : l ≠ []) (d : Val) : l.getLastD d ∈ l := by
  rw [List.getLastD_eq_getLast?, List.getLast?_eq_getLast l h]
  exact List.getLast_mem h

/-- The last cell of a column belongs to every trailing window of width
at least one. -/
theorem getLastD_mem_windowOf (N : Nat) (col : List Val) (hcol : col ≠ [])
    (hN : 1 ≤ N) (d : Val) : col.getLastD d ∈ windowOf N col := by
  have hk : col.length - N < col.length := by
    have hp : 0 < col.length := List.length_pos.mpr hcol
    omega
  have hw := windowOf_ne_nil N col hcol hN
  rw [show col.getLastD d = (windowOf N col).getLastD d from
    (getLastD_drop col (col.length - N) hk d).symm]
  exact getLastD_mem _ hw d

/-- The three branches of lines 95–103 as biconditionals on the spread. -/
theorem classifyVal_num_spec (s : ℚ) :
    (classifyVal (.num s) = "INVERTED" ↔ s < 0) ∧
    (classifyVal (.num s) = "FLAT" ↔ 0 ≤ s ∧ s < 1/2) ∧
    (classifyVal (.num s) = "NORMAL" ↔ 1/2 ≤ s) := by
  by_cases h0 : s < 0
  · have e : classifyVal (.num s) = "INVERTED" := by
      simp [classifyVal, Val.ltB, h0]
    rw [e]
    refine ⟨iff_of_true rfl h0, ?_, ?_⟩
    · exact iff_of_false (by decide) (fun hc => absurd hc.1 (not_le.mpr h0))
    · exact iff_of_false (by decide) (fun hc => by linarith)
  · by_cases h5 : s < 1/2
    · have e : classifyVal (.num s) = "FLAT" := by
        simp only [classifyVal, Val.ltB]
        rw [if_neg (by simpa using h0), if_pos (by simpa using h5)]
      rw [e]
      refine ⟨iff_of_false (by decide) (fun hc => h0 hc), ?_, ?_⟩
      · exact iff_of_true rfl ⟨not_lt.mp h0, h5⟩
      · exact iff_of_false (by decide) (fun hc => absurd h5 (not_lt.mpr hc))
    · have e : classifyVal (.num s) = "NORMAL" := by
        simp only [classifyVal, Val.ltB]
        rw [if_neg (by simpa using h0), if_neg (by simpa using h5)]
      rw [e]
      refine ⟨iff_of_false (by decide) (fun hc => h0 hc), ?_, ?_⟩
      · exact iff_of_false (by decide) (fun hc => h5 hc.2)
      · exact iff_of_true rfl (not_lt.mp h5)

theorem foldl_max_mem (xs : List ℚ) (b : ℚ) :
    xs.foldl max b = b ∨ xs.foldl max b ∈ xs := by
  induction xs generalizing b with
  | nil => exact Or.inl rfl
  | cons x xs ih =>
    rcases ih (max b x) with h | h
    · rcases max_choice b x with hb | hx
      · exact Or.inl (by rw [List.foldl_cons, h, hb])
      · exact Or.inr (by rw [List.foldl_cons, h, hx]; exact List.mem_cons_self x xs)
    · exact Or.inr (List.mem_cons_of_mem x h)

theorem listMax_mem (l : List ℚ) (h : l ≠ []) : listMax l ∈ l := by
  match l with
  | x :: xs =>
    show xs.foldl max x ∈ x :: xs
    rcases foldl_max_mem xs x with h1 | h1
    · rw [h1]; exact List.mem_cons_self x xs
    · exact List.mem_cons_of_mem x h1

theorem mem_dropNan (w : List Val) (q : ℚ) (h : q ∈ dropNan w) :
    Val.num q ∈ w := by
  obtain ⟨a, ha, hfa⟩ := List.mem_filterMap.mp h
  cases a with
  | nan => simp at hfa
  | num r =>
    have hrq : r = q := by simpa using hfa
    rw [← hrq]
    exact ha

/-! ## Claim theorems -/

/-- C1: when the last row carries finite 2Y and 10Y values, the primary
spread is `Current(10Y) - Current(2Y)`, the recorded `inversion_status`
is its classification, and the classification is "INVERTED" iff the
spread is negative, "FLAT" iff it lies in `[0, 0.5)`, and "NORMAL" iff
it is at least `0.5`. -/
theorem spread_classification_correct (d : Nat) (c : CurrentRow) (q2 q10 : ℚ)
    (h2 : c M2Y = some (.num q2)) (h10 : c M10Y = some (.num q10)) :
    spread2_10 c = some (.num (q10 - q2)) ∧
    (summaryData d c).inversionStatus = classifyVal (.num (q10 - q2)) ∧
    (classifyVal (.num (q10 - q2)) = "INVERTED" ↔ q10 - q2 < 0) ∧
    (classifyVal (.num (q10 - q2)) = "FLAT" ↔ 0 ≤ q10 - q2 ∧ q10 - q2 < 1/2) ∧
    (classifyVal (.num (q10 - q2)) = "NORMAL" ↔ 1/2 ≤ q10 - q2) := by
  have hs : spread2_10 c = some (.num (q10 - q2)) := by
    simp [spread2_10, h2, h10, Val.sub]
  have hrec : (summaryData d c).inversionStatus = classifyVal (.num (q10 - q2)) := by
    simp [summaryData, hs]
  obtain ⟨a, b, cc⟩ := classifyVal_num_spec (q10 - q2)
  exact ⟨hs, hrec, a, b, cc⟩

/-- A concrete last row with 2Y = 4.00 and 10Y = 4.30 (spread 0.30, FLAT). -/
def rowC1 : CurrentRow := fun m =>
  match m with
  | M2Y => some (.num 4)
  | M10Y => some (.num (43/10))
  | _ => none

/-- Witness for C1 at 2Y = 4.00, 10Y = 4.30. -/
theorem spread_classification_correct_witness :
    spread2_10 rowC1 = some (.num ((43:ℚ)/10 - 4)) ∧
    (summaryData 0 rowC1).inversionStatus = classifyVal (.num ((43:ℚ)/10 - 4)) ∧
    (classifyVal (.num ((43:ℚ)/10 - 4)) = "INVERTED" ↔ (43:ℚ)/10 - 4 < 0) ∧
    (classifyVal (.num ((43:ℚ)/10 - 4)) = "FLAT" ↔
      0 ≤ (43:ℚ)/10 - 4 ∧ (43:ℚ)/10 - 4 < 1/2) ∧
    (classifyVal (.num ((43:ℚ)/10 - 4)) = "NORMAL" ↔ 1/2 ≤ (43:ℚ)/10 - 4) :=
  spread_classification_correct 0 rowC1 4 (43/10) rfl rfl

/-- C2: over a non-empty table, for any maturity column whose trailing
`N`-row window (`N ≥ 1`) has no missing cells, the window statistics obey
`Min ≤ Median ≤ Max` and `Min ≤ Mean ≤ Max`, and the current (last-row)
value — which the window always contains — lies in `[Min, Max]`. -/
theorem window_stats_ordered (t : YTable) (m : Maturity) (N : Nat)
    (ht : t.rows ≠ []) (hN : 1 ≤ N)
    (hw : ∀ v ∈ windowOf N (colVals t m), v.isNan = false) :
    ∃ mn mx md mu cur : ℚ,
      vMin (windowOf N (colVals t m)) = .num mn ∧
      vMax (windowOf N (colVals t m)) = .num mx ∧
      vMedian (windowOf N (colVals t m)) = .num md ∧
      vMean (windowOf N (colVals t m)) = .num mu ∧
      (colVals t m).getLastD .nan = .num cur ∧
      mn ≤ md ∧ md ≤ mx ∧ mn ≤ mu ∧ mu ≤ mx ∧ mn ≤ cur ∧ cur ≤ mx := by
  have hcol : colVals t m ≠ [] := by
    intro hnil
    exact ht (List.map_eq_nil_iff.mp hnil)
  have hwne : windowOf N (colVals t m) ≠ [] := windowOf_ne_nil N _ hcol hN
  have hdrop : dropNan (windowOf N (colVals t m)) =
      (windowOf N (colVals t m)).map toQ := dropNan_of_noNan _ hw
  have hdropne : dropNan (windowOf N (colVals t m)) ≠ [] := by
    rw [hdrop]
    intro hnil
    exact hwne (List.map_eq_nil_iff.mp hnil)
  have hlast : (colVals t m).getLastD .nan ∈ windowOf N (colVals t m) :=
    getLastD_mem_windowOf N _ hcol hN .nan
  have hlastq : (colVals t m).getLastD .nan =
      .num (toQ ((colVals t m).getLastD .nan)) := by
    have hnn := hw _ hlast
    cases hcl : (colVals t m).getLastD .nan with
    | nan => rw [hcl] at hnn; simp [Val.isNan] at hnn
    | num q => rfl
  have hcurmem : toQ ((colVals t m).getLastD .nan) ∈
      dropNan (windowOf N (colVals t m)) := by
    rw [hdrop]
    exact List.mem_map_of_mem toQ hlast
  obtain ⟨hmd1, hmd2⟩ := listMedian_mem_bounds _ hdropne
  refine ⟨listMin (dropNan (windowOf N (colVals t m))),
    listMax (dropNan (windowOf N (colVals t m))),
    listMedian (dropNan (windowOf N (colVals t m))),
    listMean (dropNan (windowOf N (colVals t m))),
    toQ ((colVals t m).getLastD .nan),
    by simp [vMin, hdropne], by simp [vMax, hdropne],
    by simp [vMedian, hdropne], by simp [vMean, hdropne],
    hlastq, hmd1, hmd2,
    listMin_le_listMean _ hdropne, listMean_le_listMax _ hdropne,
    listMin_le_mem _ _ hcurmem, mem_le_listMax _ _ hcurmem⟩

/-- A three-row table with a single 10Y column holding 1.0, 3.0, 2.0. -/
def tblSmall : YTable :=
  { cols := [M10Y]
  , rows := [(0, [Val.num 1]), (1, [Val.num 3]), (2, [Val.num 2])] }

/-- Witness for C2 on `tblSmall` with a 2-row window. -/
theorem window_stats_ordered_witness :
    ∃ mn mx md mu cur : ℚ,
      vMin (windowOf 2 (colVals tblSmall M10Y)) = .num mn ∧
      vMax (windowOf 2 (colVals tblSmall M10Y)) = .num mx ∧
      vMedian (windowOf 2 (colVals tblSmall M10Y)) = .num md ∧
      vMean (windowOf 2 (colVals tblSmall M10Y)) = .num mu ∧
      (colVals tblSmall M10Y).getLastD .nan = .num cur ∧
      mn ≤ md ∧ md ≤ mx ∧ mn ≤ mu ∧ mu ≤ mx ∧ mn ≤ cur ∧ cur ≤ mx :=
  window_stats_ordered tblSmall M10Y 2 (by decide) (by decide) (by decide)

/-- A one-row table whose only 10Y yield is 200%. -/
def tblHigh : YTable := { cols := [M10Y], rows := [(0, [Val.num 200])] }

/-- C3 counterexample: nothing in the code bounds yields, so a table whose
single cell is a 200% yield is processed to a window maximum of 200 > 100 —
the "sane yield bound" `WindowMax ≤ 100` is not an invariant of the code. -/
theorem windowMax_sane_bound_cex :
    tblHigh.rows ≠ [] ∧
    ((statsOf tblHigh 90).lookup M10Y).map StatRec.wMax = some (.num 200) ∧
    vMax (windowOf 90 (colVals tblHigh M10Y)) = .num 200 ∧
    ¬ ((200 : ℚ) ≤ 100) := by
  refine ⟨by decide, by decide, by decide, by norm_num⟩

/-- C3 amended: the trailing-window maximum of a column is at most 100
provided every finite cell of the window is at most 100 (the window is not
all-NaN); the bound is inherited from the data, not enforced by the code. -/
theorem windowMax_le_of_cells_le (w : List Val) (hne : dropNan w ≠ [])
    (hb : ∀ v ∈ w, toQ v ≤ 100) :
    ∃ q : ℚ, vMax w = .num q ∧ q ≤ 100 := by
  refine ⟨listMax (dropNan w), by simp [vMax, hne], ?_⟩
  have hm := hb _ (mem_dropNan w _ (listMax_mem _ hne))
  simpa [toQ] using hm

/-- Witness for the amended C3 on a window `[3.0, NaN, 45.0]`. -/
theorem windowMax_le_of_cells_le_witness :
    ∃ q : ℚ, vMax [Val.num 3, Val.nan, Val.num 45] = .num q ∧ q ≤ 100 :=
  windowMax_le_of_cells_le [Val.num 3, Val.nan, Val.num 45]
    (by decide) (by decide)

/-- A last row with 10Y = 4.20 present and 3M absent. -/
def rowNo3M : CurrentRow := fun m =>
  match m with
  | M10Y => some (.num (21/5))
  | _ => none

/-- C4 counterexample: with 10Y present (4.20) and 3M absent, the auxiliary
3M–10Y spread is not computed at all (the guard `'3M' in current.index`
fails), not `Current(10Y) - 0`. -/
theorem aux_spread_zero_default_cex :
    rowNo3M M10Y = some (.num (21/5)) ∧ rowNo3M M3M = none ∧
    spread3M10Y rowNo3M = none ∧
    ¬ spread3M10Y rowNo3M = some (.num (21/5)) := by
  refine ⟨rfl, rfl, rfl, ?_⟩
  intro h
  cases h

/-- C4 amended: the auxiliary 3M–10Y spread is computed exactly when both
3M and 10Y are present, mirroring the primary spread's all-or-nothing
presence check; when computed it is the actual `Current(10Y) -
Current(3M)` — the `current.get('3M', 0)` zero-default is unreachable. -/
theorem aux_spread_presence (c : CurrentRow) :
    ((spread3M10Y c).isSome ↔ (c M3M).isSome ∧ (c M10Y).isSome) ∧
    (∀ v3 v10 : Val, c M3M = some v3 → c M10Y = some v10 →
      spread3M10Y c = some (v10.sub v3)) := by
  constructor
  · unfold spread3M10Y
    by_cases h3 : (c M3M).isSome
    · by_cases h10 : (c M10Y).isSome
      · simp [h3, h10]
      · simp [h3, h10]
    · simp [h3]
  · intro v3 v10 h3 h10
    simp [spread3M10Y, h3, h10]

/-- A last row with 3M = 5.30 and 10Y = 4.20 both present. -/
def rowWith3M : CurrentRow := fun m =>
  match m with
  | M3M => some (.num (53/10))
  | M10Y => some (.num (21/5))
  | _ => none

/-- Witness for the amended C4 at 3M = 5.30, 10Y = 4.20. -/
theorem aux_spread_presence_witness :
    ((spread3M10Y rowWith3M).isSome ↔
      (rowWith3M M3M).isSome ∧ (rowWith3M M10Y).isSome) ∧
    spread3M10Y rowWith3M = some (Val.sub (.num (21/5)) (.num (53/10))) :=
  ⟨(aux_spread_presence rowWith3M).1,
   (aux_spread_presence rowWith3M).2 (.num (53/10)) (.num (21/5)) rfl rfl⟩

/-- Fields of `summary_data` for an arbitrary date argument and last row:
the yields of all eight maturities in canonical order (`None` for each
absent column), and when 2Y or 10Y is absent the inversion field is
`'N/A'` and the spread field is absent. -/
theorem summaryData_fields (d : Nat) (c : CurrentRow) :
    (summaryData d c).date = d ∧
    (summaryData d c).yields = maturityOrder.map (fun m => (m, c m)) ∧
    (summaryData d c).yields.map Prod.fst = maturityOrder ∧
    ((c M2Y = none ∨ c M10Y = none) →
      (summaryData d c).inversionStatus = "N/A" ∧ (summaryData d c).spread = none) ∧
    (∀ m ∈ maturityOrder, c m = none →
      (m, (none : Option Val)) ∈ (summaryData d c).yields) := by
  refine ⟨rfl, rfl, ?_, ?_, ?_⟩
  · simp only [summaryData, List.map_map]
    have hid : List.map (Prod.fst ∘ fun m => (m, c m)) maturityOrder =
        List.map id maturityOrder := List.map_congr_left (fun m _ => rfl)
    rw [hid, List.map_id]
  · intro habs
    have hs : spread2_10 c = none := by
      rcases habs with h | h <;> simp [spread2_10, h]
    exact ⟨by simp [summaryData, hs], hs⟩
  · intro m hm hnone
    have : (m, c m) ∈ (summaryData d c).yields := by
      simp only [summaryData]
      exact List.mem_map_of_mem (fun m => (m, c m)) hm
    rwa [hnone] at this

/-- C7 counterexample: on a run of calendar day 7 over `tblSmall`, whose
last data row is dated 2, the summary file is named with the run day 7 but
the record's date field holds the last data-row date 2, not the run date —
`df.index[-1]` (line 121), while `datetime.now()` (line 119) only names
the file. -/
theorem summary_run_date_cex :
    (analyzeRates 7 90 tblSmall).2 =
      [{ name := summaryName 7
       , content := .summary (summaryData (lastDate tblSmall)
           (currentRowOf tblSmall)) }] ∧
    summaryName 7 = "treasury_summary_7.csv" ∧
    (summaryData (lastDate tblSmall) (currentRowOf tblSmall)).date = 2 ∧
    lastDate tblSmall = 2 ∧
    (2 : Nat) ≠ 7 :=
  ⟨rfl, rfl, rfl, rfl, by decide⟩

/-- C7 amended: the summary written by `analyze_rates` is a single record
whose date field is the last data-row date (`df.index[-1]`, not the run
date — the run date appears only in the file name), with the inversion
classification, the primary spread, and the Current yield of each of the
eight maturities in canonical order; when 2Y or 10Y is absent the
inversion and spread fields are `'N/A'` and absent, and each absent
maturity's yield is absent. -/
theorem summary_record_fields (day N : Nat) (t : YTable)
    (ht : t.rows.isEmpty = false) :
    (analyzeRates day N t).2 =
      [{ name := summaryName day
       , content := .summary (summaryData (lastDate t) (currentRowOf t)) }] ∧
    (summaryData (lastDate t) (currentRowOf t)).date = lastDate t ∧
    (summaryData (lastDate t) (currentRowOf t)).yields =
      maturityOrder.map (fun m => (m, currentRowOf t m)) ∧
    (summaryData (lastDate t) (currentRowOf t)).yields.map Prod.fst =
      maturityOrder ∧
    ((currentRowOf t M2Y = none ∨ currentRowOf t M10Y = none) →
      (summaryData (lastDate t) (currentRowOf t)).inversionStatus = "N/A" ∧
      (summaryData (lastDate t) (currentRowOf t)).spread = none) ∧
    (∀ m ∈ maturityOrder, currentRowOf t m = none →
      (m, (none : Option Val)) ∈
        (summaryData (lastDate t) (currentRowOf t)).yields) := by
  have h := summaryData_fields (lastDate t) (currentRowOf t)
  refine ⟨?_, h.1, h.2.1, h.2.2.1, h.2.2.2.1, h.2.2.2.2⟩
  simp [analyzeRates, ht]

/-- A one-row table whose only column is 5Y. -/
def tblOnly5Y : YTable := { cols := [M5Y], rows := [(0, [Val.num 4])] }

/-- Witness for the amended C7 on a table whose only column is 5Y. -/
theorem summary_record_fields_witness :
    (analyzeRates 7 90 tblOnly5Y).2 =
      [{ name := summaryName 7
       , content := .summary (summaryData (lastDate tblOnly5Y)
           (currentRowOf tblOnly5Y)) }] ∧
    (summaryData (lastDate tblOnly5Y) (currentRowOf tblOnly5Y)).date =
      lastDate tblOnly5Y ∧
    (summaryData (lastDate tblOnly5Y) (currentRowOf tblOnly5Y)).inversionStatus
      = "N/A" ∧
    (summaryData (lastDate tblOnly5Y) (currentRowOf tblOnly5Y)).spread = none ∧
    (summaryData (lastDate tblOnly5Y) (currentRowOf tblOnly5Y)).yields.map
      Prod.fst = maturityOrder ∧
    (M2Y, (none : Option Val)) ∈
      (summaryData (lastDate tblOnly5Y) (currentRowOf tblOnly5Y)).yields := by
  have h := summary_record_fields 7 90 tblOnly5Y (by decide)
  have habs := h.2.2.2.2.1 (Or.inl (by decide))
  exact ⟨h.1, h.2.1, habs.1, habs.2, h.2.2.2.1,
    h.2.2.2.2.2 M2Y (by decide) (by decide)⟩

/-- C8: when the 2Y and 10Y columns are both present but the current value
of one of them is NaN, the computation is not skipped: the NaN spread falls
through both comparisons, the recorded status is "NORMAL", and the summary's
spread field holds the NaN spread rather than being absent. -/
theorem nan_current_classified_normal (d : Nat) (c : CurrentRow)
    (h2 : (c M2Y).isSome) (h10 : (c M10Y).isSome)
    (hnan : c M2Y = some .nan ∨ c M10Y = some .nan) :
    (summaryData d c).inversionStatus = "NORMAL" ∧
    (summaryData d c).spread = some .nan ∧
    (summaryData d c).spread ≠ none := by
  have hs : spread2_10 c = some .nan := by
    rcases hnan with h | h
    · obtain ⟨v10, hv10⟩ := Option.isSome_iff_exists.mp h10
      have hsub : Val.sub v10 Val.nan = Val.nan := by cases v10 <;> rfl
      simp [spread2_10, h, hv10, hsub]
    · obtain ⟨v2, hv2⟩ := Option.isSome_iff_exists.mp h2
      have hsub : Val.sub Val.nan v2 = Val.nan := by cases v2 <;> rfl
      simp [spread2_10, h, hv2, hsub]
  refine ⟨?_, by simp [summaryData, hs], by simp [summaryData, hs]⟩
  simp [summaryData, hs, classifyVal, Val.ltB]

/-- A last row where 2Y carries NaN and 10Y carries 4.20. -/
def rowNan2Y : CurrentRow := fun m =>
  match m with
  | M2Y => some .nan
  | M10Y => some (.num (21/5))
  | _ => none

/-- Witness for C8 with a NaN current 2Y value. -/
theorem nan_current_classified_normal_witness :
    (summaryData 3 rowNan2Y).inversionStatus = "NORMAL" ∧
    (summaryData 3 rowNan2Y).spread = some .nan ∧
    (summaryData 3 rowNan2Y).spread ≠ none :=
  nan_current_classified_normal 3 rowNan2Y (by decide) (by decide) (Or.inl rfl)

/-- C5: when every per-maturity fetch fails, `get_treasury_data` returns an
empty frame without writing the raw CSV, and `main` returns early with no
statistics computed and no file written at all — in particular no summary
and no chart. -/
theorem empty_fetch_no_outputs (day tm : Nat) (fetch : FetchF)
    (h : ∀ m, fetch m = none) :
    (getTreasuryData day fetch).1 = { cols := [], rows := [] } ∧
    (getTreasuryData day fetch).2 = [] ∧
    mainRun day tm fetch = (none, []) := by
  have hall : maturityOrder.all (fun m => (fetch m).isNone) = true := by
    rw [List.all_eq_true]
    intro m _
    rw [h m]
    rfl
  have hg : getTreasuryData day fetch = ({ cols := [], rows := [] }, []) := by
    simp [getTreasuryData, hall]
  refine ⟨by rw [hg], by rw [hg], ?_⟩
  simp [mainRun, hg]

/-- Witness for C5: the all-failing fetch produces no output. -/
theorem empty_fetch_no_outputs_witness :
    (getTreasuryData 1 (fun _ => none)).1 = { cols := [], rows := [] } ∧
    (getTreasuryData 1 (fun _ => none)).2 = [] ∧
    mainRun 1 2 (fun _ => none) = (none, []) :=
  empty_fetch_no_outputs 1 2 (fun _ => none) (fun _ => rfl)

theorem assembleTable_rows_of_all_fail (fetch : FetchF)
    (hall : maturityOrder.all (fun m => (fetch m).isNone) = true) :
    (assembleTable fetch).rows = [] := by
  have hcols : maturityOrder.filter (fun m => (fetch m).isSome) = [] := by
    rw [List.filter_eq_nil_iff]
    intro m hm
    have hnone := List.all_eq_true.mp hall m hm
    simp [Option.isNone_iff_eq_none.mp hnone]
  simp [assembleTable, hcols]

/-- C6: the table `get_treasury_data` returns (and writes) contains no row
whose cells are all missing; every assembled row with at least one present
cell is kept; and the written file holds exactly that table. -/
theorem no_all_missing_rows (day : Nat) (fetch : FetchF) :
    (∀ r ∈ (getTreasuryData day fetch).1.rows,
      r.2.any (fun v => !v.isNan) = true) ∧
    (∀ r ∈ (assembleTable fetch).rows,
      r.2.any (fun v => !v.isNan) = true →
      r ∈ (getTreasuryData day fetch).1.rows) ∧
    (∀ fw ∈ (getTreasuryData day fetch).2,
      fw.content = .table (getTreasuryData day fetch).1) := by
  unfold getTreasuryData
  split
  next hall =>
    refine ⟨?_, ?_, ?_⟩
    · intro r hr
      simp at hr
    · intro r hr _
      rw [assembleTable_rows_of_all_fail fetch hall] at hr
      simp at hr
    · intro fw hfw
      simp at hfw
  next hall =>
    refine ⟨?_, ?_, ?_⟩
    · intro r hr
      exact (List.mem_filter.mp hr).2
    · intro r hr hany
      exact List.mem_filter.mpr ⟨hr, hany⟩
    · intro fw hfw
      have he : fw = { name := dataName day
                     , content := .table (dropAllNan (assembleTable fetch)) } := by
        simpa using hfw
      rw [he]

/-- A fetch where only the 10Y series succeeds, with a NaN on day 1. -/
def fetchEx : FetchF := fun m =>
  match m with
  | M10Y => some [(0, Val.num 4), (1, Val.nan)]
  | _ => none

/-- Witness for C6: the all-NaN row of day 1 is dropped, the day-0 row with
a present cell is kept. -/
theorem no_all_missing_rows_witness :
    (0, [Val.num 4]) ∈ (getTreasuryData 5 fetchEx).1.rows ∧
    (∀ r ∈ (getTreasuryData 5 fetchEx).1.rows,
      r.2.any (fun v => !v.isNan) = true) :=
  ⟨(no_all_missing_rows 5 fetchEx).2.1 (0, [Val.num 4]) (by decide) (by decide),
   (no_all_missing_rows 5 fetchEx).1⟩

/-- C9: each of the eight configured maturities is attempted exactly once
(no retry); a failing maturity is simply omitted, and the resulting table's
columns are exactly the maturities whose fetch succeeded, in order. -/
theorem per_maturity_failures_isolated (day : Nat) (fetch : FetchF) :
    (∀ m ∈ maturityOrder, fetchAttempts.count m = 1) ∧
    (getTreasuryData day fetch).1.cols =
      maturityOrder.filter (fun m => (fetch m).isSome) ∧
    (∀ m, fetch m = none → m ∉ (getTreasuryData day fetch).1.cols) := by
  have hcols : (getTreasuryData day fetch).1.cols =
      maturityOrder.filter (fun m => (fetch m).isSome) := by
    unfold getTreasuryData
    split
    next hall =>
      have hnil : maturityOrder.filter (fun m => (fetch m).isSome) = [] := by
        rw [List.filter_eq_nil_iff]
        intro m hm
        have hnone := List.all_eq_true.mp hall m hm
        simp [Option.isNone_iff_eq_none.mp hnone]
      exact hnil.symm
    next _ => rfl
  refine ⟨by decide, hcols, ?_⟩
  intro m hm hmem
  rw [hcols] at hmem
  have hs := List.of_mem_filter hmem
  rw [hm] at hs
  cases hs

/-- Witness for C9: with only the 10Y fetch succeeding, the columns are
exactly `[10Y]` and a failing maturity (2Y) is absent. -/
theorem per_maturity_failures_isolated_witness :
    (getTreasuryData 5 fetchEx).1.cols =
      maturityOrder.filter (fun m => (fetchEx m).isSome) ∧
    M2Y ∉ (getTreasuryData 5 fetchEx).1.cols :=
  ⟨(per_maturity_failures_isolated 5 fetchEx).2.1,
   (per_maturity_failures_isolated 5 fetchEx).2.2 M2Y rfl⟩

/-- C10: two runs on the same calendar day over unchanged upstream data
write the same dated CSV files with identical contents, whatever the time
of day of each run (chart files excepted). -/
theorem same_day_csv_deterministic (day t1 t2 : Nat) (fetch : FetchF) :
    (mainRun day t1 fetch).2.filter isDatedCSV =
      (mainRun day t2 fetch).2.filter isDatedCSV := by
  by_cases h : (getTreasuryData day fetch).1.rows.isEmpty
  · simp [mainRun, h]
  · simp [mainRun, h, List.filter_append, plotWrites, isDatedCSV]
